import Mathlib

/-!
Verification of the feishu-agent comment-monitor core: the diff engine
(`detectNewComments`), the polling tick (`invokeGetCommentsTools`), the
`setInterval` tick schedule, and the agent progress-chunk translators
(console reporter of `processNewCommentWithAgent` and the SSE handler of
`POST /api/agent/execute`).

The JavaScript source is dynamically typed; progress chunks are embedded as a
`JSVal` runtime-value type with explicit property-access semantics (access on
`undefined`/`null` throws, modelled with `Except`).  The comment snapshots
handled by the diff engine are embedded as typed records mirroring the fields
the source reads.  `JSON.parse` is a host primitive and is passed in as an
explicit function parameter (`none` = the parse throws).
-/

/-- JavaScript runtime value, as produced by `JSON.parse` and carried in the
agent runtime's progress chunks.  Objects are ordered field lists; field
lookup takes the first occurrence of a key. -/
inductive JSVal where
  | undefined
  | null
  | bool (b : Bool)
  | num (n : Int)
  | str (s : String)
  | arr (elems : List JSVal)
  | obj (fields : List (String × JSVal))

/-- JavaScript truthiness of a value (`if (v)`). -/
def JSVal.truthy : JSVal → Bool
  | .undefined => false
  | .null => false
  | .bool b => b
  | .num n => n != 0
  | .str s => s != ""
  | .arr _ => true
  | .obj _ => true

/-- A value on which property access does not throw (not `undefined`/`null`). -/
def notNullish : JSVal → Bool
  | .undefined => false
  | .null => false
  | _ => true

/-- Optional-chained property access `v?.k`: `undefined` when the receiver is
nullish or the key is absent; JavaScript property access on other primitives
yields `undefined` without throwing. -/
def JSVal.getOpt : JSVal → String → JSVal
  | .obj fields, k => (fields.lookup k).getD .undefined
  | _, _ => .undefined

/-- Plain property access `v.k`: throws a `TypeError` when the receiver is
`undefined` or `null`, otherwise behaves like `getOpt`. -/
def JSVal.get : JSVal → String → Except String JSVal
  | .undefined, _ => .error "TypeError: cannot read properties of undefined"
  | .null, _ => .error "TypeError: cannot read properties of null"
  | v, k => .ok (v.getOpt k)

/-- JavaScript `v[v.length - 1]` (used on the `messages` arrays): throws when
`v` is nullish, yields `undefined` for an empty array, the last character for
a string, `undefined` for other primitives. -/
def lastElem : JSVal → Except String JSVal
  | .undefined => .error "TypeError: cannot read length of undefined"
  | .null => .error "TypeError: cannot read length of null"
  | .arr xs => .ok ((xs.getLast?).getD .undefined)
  | .str s => .ok (if s.isEmpty then .undefined else .str s.back.toString)
  | _ => .ok .undefined

mutual

/-- JavaScript string coercion `String(v)` as applied by `JSON.parse` to its
argument (arrays coerce to their comma-joined elements). -/
def jsToString : JSVal → String
  | .undefined => "undefined"
  | .null => "null"
  | .bool b => if b then "true" else "false"
  | .num n => toString n
  | .str s => s
  | .arr xs => String.intercalate "," (jsToStringList xs)
  | .obj _ => "[object Object]"

/-- Element-wise string coercion of an array's values. -/
def jsToStringList : List JSVal → List String
  | [] => []
  | x :: xs => jsToString x :: jsToStringList xs

end

/-- The characters before the first `:`. -/
def takeUntilColon : List Char → List Char
  | [] => []
  | c :: cs => if c = ':' then [] else c :: takeUntilColon cs

/-- JavaScript `v.split(':')[0]` as used on `tool_call_id`: the segment before
the first `:` of a string; a `.split` call on a non-string throws. -/
def jsSplitHead : JSVal → Except String String
  | .str s => .ok ⟨takeUntilColon s.data⟩
  | _ => .error "TypeError: split is not a function"

/-- `Object.entries(v)` for a truthy `v` (the source only calls it on
`chunk.tools` after a truthiness check): own enumerable entries of an object,
index/character entries of arrays and strings, nothing for other primitives. -/
def jsEntries : JSVal → List (String × JSVal)
  | .obj fields => fields
  | .arr xs => (xs.enum.map fun p => (toString p.1, p.2))
  | .str s => (s.data.enum.map fun p => (toString p.1, JSVal.str p.2.toString))
  | _ => []

/-- `for..of` iteration: arrays iterate their elements, strings their
characters; other values are not iterable and throw. -/
def jsIter : JSVal → Except String (List JSVal)
  | .arr xs => .ok xs
  | .str s => .ok (s.data.map fun c => JSVal.str c.toString)
  | _ => .error "TypeError: value is not iterable"

/-- JavaScript strict equality `v === 0` as used on `content.code`. -/
def isNumZero : JSVal → Bool
  | .num n => n == 0
  | _ => false

/-! ## Comment snapshots and the diff engine (`detectNewComments`) -/

/-- One reply inside a comment's `reply_list.replies`, with the fields the
source reads.  `reply_id` is optional: the raw data may lack it, and the
source checks it with JavaScript truthiness (so an empty-string id counts as
missing). -/
structure Reply where
  reply_id : Option String
  user_name : Option String
  create_time : Option String
  text : Option String
deriving Repr, DecidableEq

/-- The `reply_list` object of a comment; its `replies` array is optional. -/
structure ReplyList where
  replies : Option (List Reply)
deriving Repr, DecidableEq

/-- One comment record of a snapshot: an identifying context (`comment_id`,
standing for the fields the spread `{...comment}` preserves) plus an optional
`reply_list`. -/
structure Comment where
  comment_id : Option String
  reply_list : Option ReplyList
deriving Repr, DecidableEq

/-- JavaScript truthiness of an optional string field (`if (reply.reply_id)`):
absent and empty-string values are falsy. -/
def strTruthy : Option String → Bool
  | none => false
  | some s => s != ""

/-- The `reply_id` values one comment contributes to the cached-id set
(the inner `forEach` of the set-building loop). -/
def idsFromComment (c : Comment) : List String :=
  match c.reply_list with
  | some rl =>
    match rl.replies with
    | some rs =>
      rs.foldl (fun acc r => if strTruthy r.reply_id then acc ++ [r.reply_id.getD ""] else acc) []
    | none => []
  | none => []

/-- The set of `reply_id` values present in the cached snapshot
(`cachedCommentIds`); modelled as a list, membership is what the `Set` is
used for. -/
def collectReplyIds (cachedComments : List Comment) : List String :=
  cachedComments.foldl (fun acc c => acc ++ idsFromComment c) []

/-- The new-comment records one current comment contributes: for each reply
with a truthy `reply_id` not in the cached set, the comment re-packaged with
`reply_list.replies` replaced by just that reply
(`{...comment, reply_list: {...comment.reply_list, replies: [reply]}}`). -/
def newFromComment (ids : List String) (c : Comment) : List Comment :=
  match c.reply_list with
  | some rl =>
    match rl.replies with
    | some rs =>
      rs.filterMap (fun r =>
        if strTruthy r.reply_id && !(ids.contains (r.reply_id.getD "")) then
          some { c with reply_list := some { rl with replies := some [r] } }
        else none)
    | none => []
  | none => []

/-- The diff engine (source `detectNewComments`): an empty cached list is the
"first fetch" baseline and yields nothing; otherwise every reply of the
current snapshot whose truthy `reply_id` is not among the cached ids is
reported, in traversal order, tagged with its parent comment. -/
def detectNewComments (cachedComments currentComments : List Comment) : List Comment :=
  if cachedComments.length = 0 then []
  else
    let ids := collectReplyIds cachedComments
    currentComments.foldl (fun acc c => acc ++ newFromComment ids c) []

/-! Spec-side formulation of the diff, written from the words of the
specification's Diff Engine contract (claim C1), for refinement comparison. -/

/-- The replies of a comment (empty when `reply_list` or `replies` is
absent). -/
def repliesOf (c : Comment) : List Reply :=
  match c.reply_list with
  | some rl => rl.replies.getD []
  | none => []

/-- Spec formulation: the `reply_id` values collected from all reply lists of
the old snapshot. -/
def oldReplyIds (old : List Comment) : List String :=
  old.flatMap (fun c => (repliesOf c).filterMap
    (fun r => if strTruthy r.reply_id then some (r.reply_id.getD "") else none))

/-- Spec formulation: a reply tagged with its parent comment's context. -/
def tagWithParent (c : Comment) (r : Reply) : Comment :=
  match c.reply_list with
  | some rl => { c with reply_list := some { rl with replies := some [r] } }
  | none => { c with reply_list := some { replies := some [r] } }

/-- Spec formulation of the diff as claim C1 states it (no emptiness guard on
the old snapshot): walk the new snapshot's comments in order and keep, in
order, each reply whose truthy `reply_id` is not among the old snapshot's
ids, tagged with its parent comment. -/
def diffSpec (old new : List Comment) : List Comment :=
  new.flatMap (fun c =>
    ((repliesOf c).filter
        (fun r => strTruthy r.reply_id && !((oldReplyIds old).contains (r.reply_id.getD "")))).map
      (tagWithParent c))

/-! ## The polling tick (`invokeGetCommentsTools`, lines 150-217) -/

/-- Decoded shape of the comment-fetch response (`JSON.parse(result)`): the
source only reads its `items` field and substitutes `[]` when it is absent or
falsy (`responseData.items || []`). -/
structure FetchPayload where
  items : Option (List Comment)
deriving Repr, DecidableEq

/-- Outcome of `commentTool.invoke(...)`: either the call throws (network or
tool error, caught at the tick's `catch`) or it returns the raw serialized
response string. -/
inductive FetchResult where
  | failure (msg : String)
  | success (raw : String)
deriving Repr, DecidableEq

/-- Result of one tick over one document's cache entry: the new comments
dispatched in order, and the value written to `commentsCache` (`none` when
the tick skipped without touching the cache). -/
structure TickResult where
  reported : List Comment
  cacheWrite : Option (List Comment)
deriving Repr, DecidableEq

/-- One tick of `invokeGetCommentsTools` for a document whose cache entry is
`cache` (`none` = no entry).  `parseResponse` stands for the host
`JSON.parse` plus field decoding of the response string (`none` = the parse
throws).  Any failure is caught by the tick's `catch` block: the tick is
skipped, nothing is dispatched and the cache entry is untouched. -/
def invokeGetCommentsTools (parseResponse : String → Option FetchPayload)
    (cache : Option (List Comment)) : FetchResult → TickResult
  | .failure _ => { reported := [], cacheWrite := none }
  | .success raw =>
    match parseResponse raw with
    | none => { reported := [], cacheWrite := none }
    | some payload =>
      let currentComments := payload.items.getD []
      let cachedComments := cache.getD []
      let newComments := detectNewComments cachedComments currentComments
      { reported := newComments, cacheWrite := some currentComments }

/-- A successful tick after the response has been parsed (lines 174-206):
`currentComments` is the fetched snapshot, the cache entry is read with
`commentsCache.get(docId) || []`. -/
def tickSuccess (cache : Option (List Comment)) (fetched : List Comment) : TickResult :=
  { reported := detectNewComments (cache.getD []) fetched
    cacheWrite := some fetched }

/-- Observable operations of the body of a successful tick, in program
order.  A `dispatch` event is a `processNewCommentWithAgent` invocation for
one detected comment; its `ok` flag records whether the handling succeeded
(a failure is caught by the per-comment `try`/`catch` at lines 198-202). -/
inductive TickEvent where
  | cacheSet (snapshot : List Comment)
  | dispatch (c : Comment) (ok : Bool)
deriving Repr, DecidableEq

/-- Trace of a successful tick (lines 174-206): the cache is written with the
fresh snapshot at line 183, before the dispatch loop at lines 189-203 runs
the detected comments in order; `outcome` is the (arbitrary) success or
failure of each agent dispatch. -/
def tickTrace (cache : Option (List Comment)) (fetched : List Comment)
    (outcome : Comment → Bool) : List TickEvent :=
  let cachedComments := cache.getD []
  let newComments := detectNewComments cachedComments fetched
  TickEvent.cacheSet fetched :: newComments.map (fun c => TickEvent.dispatch c (outcome c))

/-- The document's cache entry after a list of tick events has been applied
to an initial entry: `cacheSet` overwrites it, dispatches (successful or
failed) leave it alone. -/
def cacheAfter (init : Option (List Comment)) : List TickEvent → Option (List Comment)
  | [] => init
  | TickEvent.cacheSet s :: rest => cacheAfter (some s) rest
  | TickEvent.dispatch _ _ :: rest => cacheAfter init rest

/-- A run of consecutive successful ticks with the given fetched snapshots:
returns the reported lists, tick by tick, and the final cache entry. -/
def runTicks (cache : Option (List Comment)) :
    List (List Comment) → List (List Comment) × Option (List Comment)
  | [] => ([], cache)
  | f :: fs =>
    let t := tickSuccess cache f
    let rest := runTicks t.cacheWrite fs
    (t.reported :: rest.1, rest.2)

/-! ## The tick schedule (`setInterval`, lines 394-397)

The source schedules ticks with `setInterval(async () => { await
invokeGetCommentsTools(...) }, 1000)`.  Node's `setInterval` fires the
callback at each interval boundary regardless of whether the promise
returned by an earlier callback has settled; the `await` suspends the tick
at its I/O points, so a slow tick and the next scheduled tick interleave on
the event loop.  We model the idealized schedule: tick `k` starts at the
`(k+1)`-th interval boundary and its fetch-to-snapshot-write window ends
after its duration. -/

/-- Start time (ms) of the `k`-th scheduled tick for one document: the timer
fires at each multiple of `intervalMs`. -/
def tickStart (intervalMs k : ℕ) : ℕ := (k + 1) * intervalMs

/-- End of the `k`-th tick's fetch-to-snapshot-update window, `duration k`
milliseconds after its start (the fetch, parse, diff and cache write all
happen before the window closes). -/
def tickWriteEnd (intervalMs : ℕ) (duration : ℕ → ℕ) (k : ℕ) : ℕ :=
  tickStart intervalMs k + duration k

/-- Two consecutive scheduled ticks for the same document overlap when the
next tick starts before the previous tick's snapshot write has happened. -/
def ticksOverlap (intervalMs : ℕ) (duration : ℕ → ℕ) (k : ℕ) : Prop :=
  tickStart intervalMs (k + 1) < tickWriteEnd intervalMs duration k

/-! ## Concrete snapshot values used by witnesses and counterexamples -/

/-- A reply with id `r1`. -/
def replyR1 : Reply :=
  { reply_id := some "r1", user_name := some "alice", create_time := some "1700000000"
    text := some "fix the title" }

/-- The same reply id as `replyR1` with every other field changed. -/
def replyR1' : Reply :=
  { reply_id := some "r1", user_name := some "bob", create_time := some "1700009999"
    text := some "edited text" }

/-- A reply with id `r2`. -/
def replyR2 : Reply :=
  { reply_id := some "r2", user_name := some "carol", create_time := some "1700000500"
    text := some "add a summary" }

/-- A reply with no usable id. -/
def replyNoId : Reply :=
  { reply_id := none, user_name := some "dave", create_time := some "1700000700"
    text := some "anonymous note" }

/-- A comment holding only `replyR1`. -/
def commentC1 : Comment :=
  { comment_id := some "c1", reply_list := some { replies := some [replyR1] } }

/-- The same comment after `replyR2` and an id-less reply were appended. -/
def commentC1grown : Comment :=
  { comment_id := some "c1", reply_list := some { replies := some [replyR1', replyR2, replyNoId] } }

/-! ## Agent event translator: SSE handler (`POST /api/agent/execute`, lines 560-630) -/

/-- One SSE frame written to the chunked HTTP response: either a
`data: <json>` line carrying a serialized payload, or the terminal
`data: [DONE]` sentinel. -/
inductive Frame where
  | data (payload : JSVal)
  | done

/-- The single error frame written by the `catch (streamError)` handler:
`data: {"type":"error","message":...}`. -/
def mkErrorFrame (msg : String) : Frame :=
  .data (.obj [("type", .str "error"), ("message", .str msg)])

/-- Sequencing of two output-producing steps where the first may throw:
outputs accumulate, a thrown error stops the run. -/
def seqRun {α : Type} : List α × Option String → (Unit → List α × Option String) →
    List α × Option String
  | (xs, some e), _ => (xs, some e)
  | (xs, none), k =>
    let rest := k ()
    (xs ++ rest.1, rest.2)

/-- The `tool_calls` loop of the SSE handler (lines 582-588): each requested
invocation is written as a `tool_call` frame whose `args` is
`JSON.parse(toolCall.function.arguments)`; the parse has no fallback, so an
unparseable arguments string throws out of the loop. -/
def sseToolCalls (parse : String → Option JSVal) : List JSVal → List Frame × Option String
  | [] => ([], none)
  | tc :: rest =>
    match tc.get "function" with
    | .error e => ([], some e)
    | .ok fn =>
      match fn.get "name" with
      | .error e => ([], some e)
      | .ok nameV =>
        match fn.get "arguments" with
        | .error e => ([], some e)
        | .ok argsV =>
          match parse (jsToString argsV) with
          | none => ([], some "SyntaxError: unexpected token in JSON")
          | some args =>
            let f := Frame.data (.obj [("type", .str "tool_call"), ("tool", nameV),
              ("args", args)])
            let rest' := sseToolCalls parse rest
            (f :: rest'.1, rest'.2)

/-- The `chunk.agent` section of the SSE handler (lines 574-590): takes the
last element of `chunk.agent.messages`, writes an `agent` frame when its
`content` is truthy, then walks `additional_kwargs?.tool_calls`. -/
def sseAgent (parse : String → Option JSVal) (chunk : JSVal) : List Frame × Option String :=
  match chunk.get "agent" with
  | .error e => ([], some e)
  | .ok agentV =>
    if agentV.truthy then
      match lastElem (agentV.getOpt "messages") with
      | .error e => ([], some e)
      | .ok agentMessage =>
        match agentMessage.get "content" with
        | .error e => ([], some e)
        | .ok contentV =>
          let fs1 := if contentV.truthy then
              [Frame.data (.obj [("type", .str "agent"), ("content", contentV)])]
            else []
          let tcs := (agentMessage.getOpt "additional_kwargs").getOpt "tool_calls"
          if tcs.truthy then
            match jsIter tcs with
            | .error e => (fs1, some e)
            | .ok l =>
              let r := sseToolCalls parse l
              (fs1 ++ r.1, r.2)
          else (fs1, none)
    else ([], none)

/-- The inner message loop of the SSE `chunk.tools` section (lines 596-605):
every array element with a truthy `kwargs?.tool_call_id` produces one
`tool_response` frame whose tool name is the id segment before the first
`:`, always with `success: true`. -/
def sseToolMsgs : List JSVal → List Frame × Option String
  | [] => ([], none)
  | m :: rest =>
    match m.get "kwargs" with
    | .error e => ([], some e)
    | .ok kwargs =>
      let tcid := kwargs.getOpt "tool_call_id"
      if tcid.truthy then
        match jsSplitHead tcid with
        | .error e => ([], some e)
        | .ok toolName =>
          let f := Frame.data (.obj [("type", .str "tool_response"),
            ("tool", .str toolName), ("success", .bool true)])
          let rest' := sseToolMsgs rest
          (f :: rest'.1, rest'.2)
      else sseToolMsgs rest

/-- The `Object.entries(chunk.tools)` loop (lines 594-607): only entries whose
value is an array are walked. -/
def sseEntries : List (String × JSVal) → List Frame × Option String
  | [] => ([], none)
  | (_, v) :: rest =>
    match v with
    | .arr ms => seqRun (sseToolMsgs ms) (fun _ => sseEntries rest)
    | _ => sseEntries rest

/-- The `chunk.tools` section of the SSE handler (lines 593-608). -/
def sseTools (chunk : JSVal) : List Frame × Option String :=
  match chunk.get "tools" with
  | .error e => ([], some e)
  | .ok t => if t.truthy then sseEntries (jsEntries t) else ([], none)

/-- The `chunk.__end__ && chunk.messages` section of the SSE handler
(lines 611-617): writes one `final` frame with the last message's content. -/
def sseEnd (chunk : JSVal) : List Frame × Option String :=
  match chunk.get "__end__" with
  | .error e => ([], some e)
  | .ok endV =>
    if endV.truthy then
      match chunk.get "messages" with
      | .error e => ([], some e)
      | .ok msgsV =>
        if msgsV.truthy then
          match lastElem msgsV with
          | .error e => ([], some e)
          | .ok lastMessage =>
            match lastMessage.get "content" with
            | .error e => ([], some e)
            | .ok contentV =>
              ([Frame.data (.obj [("type", .str "final"), ("content", contentV)])], none)
        else ([], none)
    else ([], none)

/-- Translation of one progress chunk by the SSE handler: the three sections
in program order; a throw anywhere stops the chunk (and, upstream, the whole
stream). -/
def sseChunk (parse : String → Option JSVal) (chunk : JSVal) : List Frame × Option String :=
  seqRun (sseAgent parse chunk) (fun _ => seqRun (sseTools chunk) (fun _ => sseEnd chunk))

/-- The `for await (const chunk of stream)` loop of the SSE handler: chunks
are translated in order until one of them throws. -/
def runChunks (parse : String → Option JSVal) : List JSVal → List Frame × Option String
  | [] => ([], none)
  | c :: cs => seqRun (sseChunk parse c) (fun _ => runChunks parse cs)

/-- The whole streaming body of the SSE handler (lines 567-630): the frames
written to the response and the number of `res.end()` calls.  `streamErr`
models the underlying agent stream itself failing after yielding `chunks`
(the `for await` then throws).  On a clean end the handler writes the
`data: [DONE]` sentinel; any mid-stream throw is caught once and answered
with a single error frame; both paths close the response exactly once. -/
def executeStream (parse : String → Option JSVal) (chunks : List JSVal)
    (streamErr : Option String) : List Frame × Nat :=
  let r := runChunks parse chunks
  match r.2 with
  | some e => (r.1 ++ [mkErrorFrame e], 1)
  | none =>
    match streamErr with
    | some e => (r.1 ++ [mkErrorFrame e], 1)
    | none => (r.1 ++ [Frame.done], 1)

/-! ## Agent event translator: console reporter
(`processNewCommentWithAgent`, lines 243-314) -/

/-- Canonical typed events emitted by the console reporter, per the spec's
`AgentEvent` data model.  `toolResult` carries the recovered tool name, the
success flag and the payload (structured data, error message string, or the
raw unparsed content). -/
inductive AgentEvent where
  | tokenUsage (input output total : JSVal)
  | message (content : JSVal)
  | reasoning (content : JSVal)
  | toolCallNamed (name : JSVal)
  | toolResult (name : String) (success : Bool) (payload : JSVal)

/-- The `try { JSON.parse(...) ... } catch` block of the console tool-message
handler (lines 291-304): a parsed payload with `code === 0` and truthy
`data` reports success with the data; any other parsed payload reports
failure with `msg || 'Unknown error'`; a throw anywhere in the block (parse
failure, or property access on a `null` parse result) falls back to
forwarding the raw content as a success. -/
def consoleParseBranch (parse : String → Option JSVal) (name : String)
    (contentV : JSVal) : AgentEvent :=
  let attempt : Except String AgentEvent := do
    let content ← match parse (jsToString contentV) with
      | none => Except.error "SyntaxError: unexpected token in JSON"
      | some c => pure c
    let codeV ← content.get "code"
    if isNumZero codeV then
      let dataV ← content.get "data"
      if dataV.truthy then
        pure (.toolResult name true dataV)
      else
        let msgV ← content.get "msg"
        pure (.toolResult name false
          (.str (if msgV.truthy then jsToString msgV else "Unknown error")))
    else
      let msgV ← content.get "msg"
      pure (.toolResult name false
        (.str (if msgV.truthy then jsToString msgV else "Unknown error")))
  match attempt with
  | .ok ev => ev
  | .error _ => .toolResult name true contentV

/-- The console handler for one element of a `chunk.tools` message array
(lines 282-305): messages with a truthy `kwargs?.tool_call_id` are reported,
the tool name being the id segment before the first `:`. -/
def consoleToolMessage (parse : String → Option JSVal) (message : JSVal) :
    Except String (List AgentEvent) := do
  let kwargs ← message.get "kwargs"
  let tcid := kwargs.getOpt "tool_call_id"
  if tcid.truthy then
    let toolName ← jsSplitHead tcid
    let contentV ← kwargs.get "content"
    pure [consoleParseBranch parse toolName contentV]
  else
    pure []

/-- The console `tool_calls` loop (lines 272-275): only the tool name is
reported (the arguments parse in the source is commented out). -/
def consoleToolCalls : List JSVal → List AgentEvent × Option String
  | [] => ([], none)
  | tc :: rest =>
    match tc.get "function" with
    | .error e => ([], some e)
    | .ok fn =>
      match fn.get "name" with
      | .error e => ([], some e)
      | .ok nameV =>
        let rest' := consoleToolCalls rest
        (AgentEvent.toolCallNamed nameV :: rest'.1, rest'.2)

/-- The `chunk.agent` section of the console reporter (lines 246-277): token
usage (unified shape first, then the legacy `response_metadata.tokenUsage`
shape), message content, reasoning content, then tool-call names. -/
def consoleAgent (chunk : JSVal) : List AgentEvent × Option String :=
  match chunk.get "agent" with
  | .error e => ([], some e)
  | .ok agentV =>
    if agentV.truthy then
      match lastElem (agentV.getOpt "messages") with
      | .error e => ([], some e)
      | .ok agentMessage =>
        match agentMessage.get "usage_metadata" with
        | .error e => ([], some e)
        | .ok um =>
          let evs1 :=
            if um.truthy then
              [AgentEvent.tokenUsage (um.getOpt "input_tokens") (um.getOpt "output_tokens")
                (um.getOpt "total_tokens")]
            else
              let tu := (agentMessage.getOpt "response_metadata").getOpt "tokenUsage"
              if tu.truthy then
                [AgentEvent.tokenUsage (tu.getOpt "promptTokens") (tu.getOpt "completionTokens")
                  (tu.getOpt "totalTokens")]
              else []
          let contentV := agentMessage.getOpt "content"
          let evs2 := if contentV.truthy then [AgentEvent.message contentV] else []
          let rc := agentMessage.getOpt "reasoning_content"
          let evs3 := if rc.truthy then [AgentEvent.reasoning rc] else []
          let tcs := (agentMessage.getOpt "additional_kwargs").getOpt "tool_calls"
          if tcs.truthy then
            match jsIter tcs with
            | .error e => (evs1 ++ evs2 ++ evs3, some e)
            | .ok l =>
              let r := consoleToolCalls l
              (evs1 ++ evs2 ++ evs3 ++ r.1, r.2)
          else (evs1 ++ evs2 ++ evs3, none)
    else ([], none)

/-- The inner message loop of the console `chunk.tools` section. -/
def consoleToolMsgs (parse : String → Option JSVal) : List JSVal → List AgentEvent × Option String
  | [] => ([], none)
  | m :: rest =>
    match consoleToolMessage parse m with
    | .error e => ([], some e)
    | .ok evs =>
      let rest' := consoleToolMsgs parse rest
      (evs ++ rest'.1, rest'.2)

/-- The `Object.entries(chunk.tools)` loop of the console reporter
(lines 280-308). -/
def consoleEntries (parse : String → Option JSVal) :
    List (String × JSVal) → List AgentEvent × Option String
  | [] => ([], none)
  | (_, v) :: rest =>
    match v with
    | .arr ms => seqRun (consoleToolMsgs parse ms) (fun _ => consoleEntries parse rest)
    | _ => consoleEntries parse rest

/-- The `chunk.tools` section of the console reporter (lines 279-309). -/
def consoleTools (parse : String → Option JSVal) (chunk : JSVal) :
    List AgentEvent × Option String :=
  match chunk.get "tools" with
  | .error e => ([], some e)
  | .ok t => if t.truthy then consoleEntries parse (jsEntries t) else ([], none)

/-- The `chunk.__end__` check of the console loop (lines 311-313): only
records the chunk for the post-loop summary, no events. -/
def consoleEndCheck (chunk : JSVal) : List AgentEvent × Option String :=
  match chunk.get "__end__" with
  | .error e => ([], some e)
  | .ok _ => ([], none)

/-- Translation of one progress chunk by the console reporter: the three
sections in program order; a throw anywhere aborts the chunk (and, upstream,
the whole stream: the surrounding `try`/`catch` of
`processNewCommentWithAgent` logs it and returns `null`). -/
def consoleChunk (parse : String → Option JSVal) (chunk : JSVal) :
    List AgentEvent × Option String :=
  seqRun (consoleAgent chunk) (fun _ =>
    seqRun (consoleTools parse chunk) (fun _ => consoleEndCheck chunk))

/-! ## Chunk well-formedness: sufficient conditions under which the
translators cannot throw -/

/-- A requested tool invocation the translators survive: property access on
it and on its `function` cannot throw, and (for the SSE path) its serialized
`arguments` parse. -/
def wfToolCall (parse : String → Option JSVal) (tc : JSVal) : Bool :=
  notNullish tc && notNullish (tc.getOpt "function") &&
    (parse (jsToString ((tc.getOpt "function").getOpt "arguments"))).isSome

/-- An agent-turn message the translators survive: it is a real value (the
`messages` array's last element is not `undefined`/`null`) and its
`tool_calls`, when truthy, is an array of well-formed invocations. -/
def wfAgentMessage (parse : String → Option JSVal) (am : JSVal) : Bool :=
  notNullish am &&
    (let tcs := (am.getOpt "additional_kwargs").getOpt "tool_calls"
     if tcs.truthy then
       match tcs with
       | .arr l => l.all (wfToolCall parse)
       | _ => false
     else true)

/-- The `agent` branch, when taken, provides a non-empty `messages` array
whose last element is well-formed. -/
def wfAgentPart (parse : String → Option JSVal) (chunk : JSVal) : Bool :=
  let a := chunk.getOpt "agent"
  if a.truthy then
    match a.getOpt "messages" with
    | .arr l =>
      match l.getLast? with
      | some am => wfAgentMessage parse am
      | none => false
    | _ => false
  else true

/-- A `chunk.tools` message array element the translators survive: property
access on it cannot throw and a truthy `tool_call_id` is a string (so
`.split` exists). -/
def wfToolsMessage (tm : JSVal) : Bool :=
  notNullish tm &&
    (let tcid := (tm.getOpt "kwargs").getOpt "tool_call_id"
     if tcid.truthy then
       match tcid with
       | .str _ => true
       | _ => false
     else true)

/-- The `tools` branch, when taken, has only well-formed messages in its
array-valued entries (non-array entries are skipped by the source). -/
def wfToolsPart (chunk : JSVal) : Bool :=
  let t := chunk.getOpt "tools"
  if t.truthy then
    (jsEntries t).all (fun kv =>
      match kv.2 with
      | .arr ms => ms.all wfToolsMessage
      | _ => true)
  else true

/-- The termination branch, when taken, provides a non-empty `messages` array
with a real last element. -/
def wfEndPart (chunk : JSVal) : Bool :=
  if (chunk.getOpt "__end__").truthy && (chunk.getOpt "messages").truthy then
    match chunk.getOpt "messages" with
    | .arr l =>
      match l.getLast? with
      | some lm => notNullish lm
      | none => false
    | _ => false
  else true

/-- A progress chunk both translators process without throwing. -/
def wellFormedChunk (parse : String → Option JSVal) (chunk : JSVal) : Bool :=
  notNullish chunk && wfAgentPart parse chunk && wfToolsPart chunk && wfEndPart chunk

/-! ## Expected translator outputs (clean characterizations used by the
amended claims) -/

/-- The `tool_call` frame the SSE handler writes for one well-formed
invocation: name taken from `function.name`, arguments parsed from their
serialized form. -/
def expectedToolCallFrame (parse : String → Option JSVal) (tc : JSVal) : Frame :=
  Frame.data (.obj [("type", .str "tool_call"),
    ("tool", (tc.getOpt "function").getOpt "name"),
    ("args", (parse (jsToString ((tc.getOpt "function").getOpt "arguments"))).getD .undefined)])

/-- The `ToolResult` event the console reporter produces for a tool message
with recovered name `name` and raw content `contentV`: an unparseable (or
nullish-parsing) payload is forwarded raw as a success; a parsed payload
reports success only when `code === 0` *and* `data` is truthy, and reports
failure with `msg || 'Unknown error'` otherwise. -/
def expectedToolResult (parse : String → Option JSVal) (name : String)
    (contentV : JSVal) : AgentEvent :=
  match parse (jsToString contentV) with
  | none => .toolResult name true contentV
  | some c =>
    if notNullish c then
      if isNumZero (c.getOpt "code") then
        if (c.getOpt "data").truthy then
          .toolResult name true (c.getOpt "data")
        else
          .toolResult name false
            (.str (if (c.getOpt "msg").truthy then jsToString (c.getOpt "msg") else "Unknown error"))
      else
        .toolResult name false
          (.str (if (c.getOpt "msg").truthy then jsToString (c.getOpt "msg") else "Unknown error"))
    else .toolResult name true contentV

/-! ## Concrete chunks and parse oracles used by witnesses and
counterexamples -/

/-- A parse oracle that fails on every input (every argument string is
invalid JSON). -/
def parseNone : String → Option JSVal := fun _ => none

/-- A parse oracle for the concrete strings the witnesses feed it, matching
what `JSON.parse` returns on them. -/
def parseDemo : String → Option JSVal := fun s =>
  if s = "\x7b\x7d" then some (.obj [])
  else if s = "\x7b\"code\":0\x7d" then some (.obj [("code", .num 0)])
  else if s = "\x7b\"code\":0,\"data\":\x7b\"ok\":1\x7d\x7d" then
    some (.obj [("code", .num 0), ("data", .obj [("ok", .num 1)])])
  else none

/-- A chunk with an `agent` field but no `messages` (the shape the claimed
total translator must survive). -/
def chunkAgentNoMessages : JSVal := .obj [("agent", .obj [])]

/-- A well-formed chunk: one agent message carrying plain content. -/
def chunkAgentHello : JSVal :=
  .obj [("agent", .obj [("messages", .arr [.obj [("content", .str "hi")]])])]

/-- A requested tool invocation whose serialized arguments are not valid
JSON. -/
def toolCallBadArgs : JSVal :=
  .obj [("function", .obj [("name", .str "drive_comment_list"),
    ("arguments", .str "not json")])]

/-- A requested tool invocation whose serialized arguments parse (under
`parseDemo`). -/
def toolCallGoodArgs : JSVal :=
  .obj [("function", .obj [("name", .str "drive_comment_list"),
    ("arguments", .str "\x7b\x7d")])]

/-- A tool execution result whose payload parses to `{code: 0}` with no
`data` field. -/
def msgCode0NoData : JSVal :=
  .obj [("kwargs", .obj [("tool_call_id", .str "drive_comment_list:call_1"),
    ("content", .str "\x7b\"code\":0\x7d")])]

/-- A tool execution result whose payload parses to a success with data. -/
def msgCode0WithData : JSVal :=
  .obj [("kwargs", .obj [("tool_call_id", .str "drive_comment_list:call_7"),
    ("content", .str "\x7b\"code\":0,\"data\":\x7b\"ok\":1\x7d\x7d")])]

/-! # Helper lemmas -/

theorem foldl_append_eq {α β : Type} (f : α → List β) (xs : List α) (init : List β) :
    xs.foldl (fun acc c => acc ++ f c) init = init ++ xs.flatMap f := by
  induction xs generalizing init with
  | nil => simp
  | cons x xs ih => simp [ih, List.append_assoc]

theorem filterMap_if_eq_map_filter {α β : Type} (p : α → Bool) (g : α → β) (rs : List α) :
    rs.filterMap (fun r => if p r then some (g r) else none) = (rs.filter p).map g := by
  induction rs with
  | nil => rfl
  | cons r rs ih => by_cases h : p r <;> simp [List.filter_cons, h, ih]

theorem foldl_if_append {α : Type} (p : α → Bool) (g : α → String) (rs : List α)
    (init : List String) :
    rs.foldl (fun acc r => if p r then acc ++ [g r] else acc) init =
      init ++ rs.filterMap (fun r => if p r then some (g r) else none) := by
  induction rs generalizing init with
  | nil => simp
  | cons r rs ih => by_cases h : p r <;> simp [h, ih]

theorem newFromComment_eq (ids : List String) (c : Comment) :
    newFromComment ids c =
      ((repliesOf c).filter
          (fun r => strTruthy r.reply_id && !(ids.contains (r.reply_id.getD "")))).map
        (tagWithParent c) := by
  obtain ⟨cid, rl⟩ := c
  match rl with
  | none => rfl
  | some ⟨none⟩ => rfl
  | some ⟨some rs⟩ =>
    simp only [newFromComment, repliesOf, Option.getD_some]
    rw [filterMap_if_eq_map_filter]
    rfl

theorem idsFromComment_eq (c : Comment) :
    idsFromComment c = (repliesOf c).filterMap
      (fun r => if strTruthy r.reply_id then some (r.reply_id.getD "") else none) := by
  obtain ⟨cid, rl⟩ := c
  match rl with
  | none => rfl
  | some ⟨none⟩ => rfl
  | some ⟨some rs⟩ =>
    simp only [idsFromComment, repliesOf, Option.getD_some]
    rw [foldl_if_append]
    rfl

theorem collectReplyIds_eq (old : List Comment) : collectReplyIds old = oldReplyIds old := by
  have hfun : idsFromComment = fun c => (repliesOf c).filterMap
      (fun r => if strTruthy r.reply_id then some (r.reply_id.getD "") else none) :=
    funext idsFromComment_eq
  unfold collectReplyIds oldReplyIds
  rw [foldl_append_eq, hfun]
  simp

theorem detectNewComments_eq_spec {old : List Comment} (new : List Comment) (h : old ≠ []) :
    detectNewComments old new = diffSpec old new := by
  have hlen : ¬ old.length = 0 := by simpa using h
  have hfun : newFromComment (collectReplyIds old) = fun c =>
      ((repliesOf c).filter
          (fun r => strTruthy r.reply_id && !((oldReplyIds old).contains (r.reply_id.getD "")))).map
        (tagWithParent c) := by
    funext c
    rw [collectReplyIds_eq, newFromComment_eq]
  unfold detectNewComments diffSpec
  rw [if_neg hlen, foldl_append_eq, hfun]
  simp

theorem repliesOf_tagWithParent (c : Comment) (r : Reply) :
    repliesOf (tagWithParent c r) = [r] := by
  obtain ⟨cid, rl⟩ := c
  cases rl <;> rfl

theorem mem_oldReplyIds {old : List Comment} {c : Comment} {r : Reply}
    (hc : c ∈ old) (hr : r ∈ repliesOf c) (ht : strTruthy r.reply_id = true) :
    (r.reply_id.getD "") ∈ oldReplyIds old := by
  unfold oldReplyIds
  rw [List.mem_flatMap]
  refine ⟨c, hc, ?_⟩
  rw [List.mem_filterMap]
  exact ⟨r, hr, by simp [ht]⟩

theorem mem_detect_new {old new : List Comment} {c' : Comment}
    (h : c' ∈ detectNewComments old new) :
    ∃ c ∈ new, ∃ r ∈ repliesOf c,
      strTruthy r.reply_id = true ∧
      (r.reply_id.getD "") ∉ oldReplyIds old ∧
      c' = tagWithParent c r := by
  by_cases hold : old = []
  · subst hold
    simp [detectNewComments] at h
  · rw [detectNewComments_eq_spec new hold] at h
    simp only [diffSpec, List.mem_flatMap, List.mem_map, List.mem_filter] at h
    obtain ⟨c, hc, r, ⟨hr, hp⟩, rfl⟩ := h
    rw [Bool.and_eq_true, Bool.not_eq_true'] at hp
    refine ⟨c, hc, r, hr, hp.1, ?_, rfl⟩
    have := hp.2
    simpa using this

theorem cacheAfter_map_dispatch (init : Option (List Comment)) (l : List Comment)
    (g : Comment → Bool) :
    cacheAfter init (l.map (fun c => TickEvent.dispatch c (g c))) = init := by
  induction l with
  | nil => rfl
  | cons c l ih => simpa [cacheAfter] using ih

/-! # Claim theorems: diff engine and polling tick -/

/-- C1 (amended): for every present **non-empty** previous snapshot `old` and
fresh snapshot `new`, `detectNewComments` returns exactly those replies of
`new` whose truthy `reply_id` is not among the `reply_id` values collected
from all reply lists of `old`, in the order the replies appear in `new`,
each tagged with its parent comment's context; a reply whose `reply_id`
appears in `old` is never in the result even if its other fields differ, and
a reply lacking a (truthy) `reply_id` is never in the result.  (The original
claim, quantified over *every* present `old`, fails when the present
snapshot is the empty list: the source treats it as the first-poll
baseline.) -/
theorem diff_engine_matches_spec (old new : List Comment) (h : old ≠ []) :
    detectNewComments old new = diffSpec old new :=
  detectNewComments_eq_spec new h

/-- Witness for `diff_engine_matches_spec` at a concrete non-empty old
snapshot: the grown snapshot's reply `r2` is reported once; the re-edited
reply with cached id `r1` and the id-less reply are not. -/
theorem diff_engine_matches_spec_witness :
    detectNewComments [commentC1] [commentC1grown] = diffSpec [commentC1] [commentC1grown] :=
  diff_engine_matches_spec [commentC1] [commentC1grown] (by decide)

/-- C1 counterexample: with a present previous snapshot that is the empty
list and a fresh snapshot holding one reply with a fresh `reply_id`, the
claim's predicted diff is that tagged reply, but `detectNewComments` returns
the empty list (its `cachedComments.length === 0` guard treats the present
empty snapshot as the first-poll baseline). -/
theorem diff_engine_empty_old_counterexample :
    detectNewComments [] [commentC1] = [] ∧
    diffSpec [] [commentC1] = [tagWithParent commentC1 replyR1] ∧
    detectNewComments [] [commentC1] ≠ diffSpec [] [commentC1] := by
  exact ⟨rfl, by decide, by decide⟩

/-- C5: on the first poll of a monitor job there is no cache entry, the
cached list defaults to `[]`, and the diff reports nothing: the fetch merely
establishes the baseline, for every fetched snapshot. -/
theorem first_poll_reports_nothing (fetched : List Comment) :
    (tickSuccess none fetched).reported = [] ∧ detectNewComments [] fetched = [] :=
  ⟨rfl, rfl⟩

/-- C10: a stored empty snapshot is indistinguishable from an absent one
(the baseline test is `cachedComments.length === 0`), so a tick whose cache
entry is the empty list reports nothing for any fetched snapshot; hence for
a document whose baseline poll observed zero comments, every tick of a run
whose fetches stay empty until some snapshot `lastF` arrives reports
nothing — `lastF`'s replies are silently absorbed as the new baseline. -/
theorem empty_snapshot_is_baseline :
    (∀ fetched : List Comment,
      (tickSuccess (some []) fetched).reported = (tickSuccess none fetched).reported ∧
      (tickSuccess (some []) fetched).reported = []) ∧
    (∀ (fs : List (List Comment)) (lastF : List Comment), (∀ f ∈ fs, f = []) →
      (runTicks (some []) (fs ++ [lastF])).1 = List.replicate (fs.length + 1) []) := by
  refine ⟨fun fetched => ⟨rfl, rfl⟩, fun fs lastF h => ?_⟩
  induction fs with
  | nil => simp [runTicks, tickSuccess, detectNewComments]
  | cons f fs ih =>
    have hf : f = [] := h f (by simp)
    subst hf
    simp only [List.cons_append, runTicks, tickSuccess]
    rw [List.length_cons]
    rw [List.replicate_succ]
    refine congrArg₂ _ rfl ?_
    exact ih (fun f hf => h f (by simp [hf]))

/-- Witness for `empty_snapshot_is_baseline`: two empty fetches followed by a
snapshot carrying a reply produce three empty reports. -/
theorem empty_snapshot_is_baseline_witness :
    (runTicks (some []) ([[], []] ++ [[commentC1]])).1 = List.replicate 3 [] :=
  empty_snapshot_is_baseline.2 [[], []] [commentC1] (by decide)

/-- C2: on every successful tick the trace starts with the cache write of the
freshly fetched snapshot, every later event is a dispatch, and the cache
entry after the tick equals the fresh snapshot whatever the dispatch
outcomes are (a failed handler cannot undo the write, which happened before
the dispatch loop); consequently a reply with a truthy id present in the
written snapshot is never part of the next tick's report, whatever that tick
fetches. -/
theorem snapshot_replaced_before_dispatch (cache : Option (List Comment))
    (fetched : List Comment) (outcome : Comment → Bool) (nextFetched : List Comment) :
    (tickTrace cache fetched outcome).head? = some (TickEvent.cacheSet fetched) ∧
    (∀ e ∈ (tickTrace cache fetched outcome).tail, ∃ c ok, e = TickEvent.dispatch c ok) ∧
    cacheAfter cache (tickTrace cache fetched outcome) = some fetched ∧
    (∀ c ∈ fetched, ∀ r ∈ repliesOf c, strTruthy r.reply_id = true →
      ∀ c' ∈ (tickSuccess (some fetched) nextFetched).reported,
        ∀ r' ∈ repliesOf c', r'.reply_id ≠ r.reply_id) := by
  refine ⟨rfl, ?_, ?_, ?_⟩
  · intro e he
    simp only [tickTrace, List.tail_cons, List.mem_map] at he
    obtain ⟨c, _, rfl⟩ := he
    exact ⟨c, _, rfl⟩
  · show cacheAfter (some fetched) _ = some fetched
    exact cacheAfter_map_dispatch _ _ _
  · intro c hc r hr ht c' hc' r' hr'
    have hmem := mem_detect_new (show c' ∈ detectNewComments fetched nextFetched from hc')
    obtain ⟨c₂, _, r₂, hr₂, ht₂, hnc, rfl⟩ := hmem
    rw [repliesOf_tagWithParent, List.mem_singleton] at hr'
    subst hr'
    intro heq
    have hidmem : (r.reply_id.getD "") ∈ oldReplyIds fetched := mem_oldReplyIds hc hr ht
    rw [← heq] at hidmem
    exact hnc hidmem

/-- Witness for `snapshot_replaced_before_dispatch`: with a failing dispatch
the cache still holds the fresh snapshot and the trace leads with the cache
write. -/
theorem snapshot_replaced_before_dispatch_witness :
    cacheAfter (some [commentC1]) (tickTrace (some [commentC1]) [commentC1grown]
      (fun _ => false)) = some [commentC1grown] ∧
    (tickTrace (some [commentC1]) [commentC1grown] (fun _ => false)).head? =
      some (TickEvent.cacheSet [commentC1grown]) := by
  have h := snapshot_replaced_before_dispatch (some [commentC1]) [commentC1grown]
    (fun _ => false) []
  exact ⟨h.2.2.1, h.1⟩

/-- C6: a tick whose fetch throws, or whose response fails to parse, reports
nothing, writes nothing to the cache, and yields a normal (caught) result
rather than propagating the failure. -/
theorem fetch_failure_skips_tick (parseResponse : String → Option FetchPayload)
    (cache : Option (List Comment)) (msg : String) :
    invokeGetCommentsTools parseResponse cache (.failure msg) =
      { reported := [], cacheWrite := none } ∧
    (∀ raw, parseResponse raw = none →
      invokeGetCommentsTools parseResponse cache (.success raw) =
        { reported := [], cacheWrite := none }) := by
  refine ⟨rfl, fun raw h => ?_⟩
  simp [invokeGetCommentsTools, h]

/-- Witness for `fetch_failure_skips_tick`: a thrown fetch and an unparseable
response both leave the cache entry untouched. -/
theorem fetch_failure_skips_tick_witness :
    invokeGetCommentsTools (fun _ => none) (some [commentC1]) (.failure "ECONNRESET") =
      { reported := [], cacheWrite := none } ∧
    invokeGetCommentsTools (fun _ => none) (some [commentC1]) (.success "garbled") =
      { reported := [], cacheWrite := none } := by
  have h := fetch_failure_skips_tick (fun _ => none) (some [commentC1]) "ECONNRESET"
  exact ⟨h.1, h.2 "garbled" rfl⟩

/-- C4 (code bug): the source schedules ticks with `setInterval(async () =>
{ await invokeGetCommentsTools(...) }, 1000)`; `setInterval` fires the
callback at every interval boundary without awaiting the previous callback's
promise, so with the source's 1000 ms interval a tick whose
fetch-to-snapshot-write window lasts 1500 ms is still running when the next
tick starts: the windows overlap (tick 1 starts at 2000 ms, tick 0's write
happens at 2500 ms), contradicting the claimed serialization. -/
theorem setInterval_ticks_overlap :
    ticksOverlap 1000 (fun _ => 1500) 0 ∧
    tickStart 1000 1 = 2000 ∧
    tickWriteEnd 1000 (fun _ => 1500) 0 = 2500 := by
  refine ⟨?_, rfl, rfl⟩
  show tickStart 1000 1 < tickWriteEnd 1000 (fun _ => 1500) 0
  norm_num [tickStart, tickWriteEnd]

/-! # Helper lemmas: translators -/

theorem get_eq_getOpt {v : JSVal} (k : String) (h : notNullish v = true) :
    v.get k = .ok (v.getOpt k) := by
  cases v <;> simp_all [notNullish, JSVal.get]

theorem notNullish_of_truthy {v : JSVal} (h : v.truthy = true) : notNullish v = true := by
  cases v <;> simp_all [JSVal.truthy, notNullish]

theorem notNullish_of_getOpt_truthy {v : JSVal} {k : String}
    (h : (v.getOpt k).truthy = true) : notNullish v = true := by
  cases v <;> simp_all [JSVal.getOpt, JSVal.truthy, notNullish]

theorem seqRun_none {α : Type} (p : List α × Option String) (k : Unit → List α × Option String)
    (hp : p.2 = none) : seqRun p k = (p.1 ++ (k ()).1, (k ()).2) := by
  obtain ⟨xs, e⟩ := p
  cases e with
  | none => rfl
  | some e => simp at hp

theorem seqRun_some {α : Type} (p : List α × Option String) (k : Unit → List α × Option String)
    (e : String) (hp : p.2 = some e) : seqRun p k = (p.1, some e) := by
  obtain ⟨xs, e'⟩ := p
  cases e' with
  | none => simp at hp
  | some e' => simp at hp; subst hp; rfl

theorem seqRun_mem {α : Type} (p : List α × Option String) (k : Unit → List α × Option String) :
    ∀ x ∈ (seqRun p k).1, x ∈ p.1 ∨ x ∈ (k ()).1 := by
  obtain ⟨xs, e⟩ := p
  cases e with
  | none => intro x hx; simpa [seqRun] using hx
  | some e => intro x hx; exact Or.inl (by simpa [seqRun] using hx)

theorem sseToolCalls_wf (parse : String → Option JSVal) (l : List JSVal)
    (h : ∀ tc ∈ l, wfToolCall parse tc = true) :
    sseToolCalls parse l = (l.map (expectedToolCallFrame parse), none) := by
  induction l with
  | nil => rfl
  | cons tc rest ih =>
    have htc := h tc (by simp)
    unfold wfToolCall at htc
    rw [Bool.and_eq_true, Bool.and_eq_true] at htc
    obtain ⟨⟨h1, h2⟩, h3⟩ := htc
    obtain ⟨args, hargs⟩ := Option.isSome_iff_exists.mp h3
    have ih' := ih (fun tc' h' => h tc' (by simp [h']))
    simp only [sseToolCalls, get_eq_getOpt "function" h1, get_eq_getOpt "name" h2,
      get_eq_getOpt "arguments" h2, hargs, ih', List.map_cons]
    simp [expectedToolCallFrame, hargs]

theorem wfToolsMessage_cases {m : JSVal} (h : wfToolsMessage m = true) :
    notNullish m = true ∧
      ((∃ s, (m.getOpt "kwargs").getOpt "tool_call_id" = JSVal.str s) ∨
        ((m.getOpt "kwargs").getOpt "tool_call_id").truthy = false) := by
  unfold wfToolsMessage at h
  rw [Bool.and_eq_true] at h
  refine ⟨h.1, ?_⟩
  have h2 := h.2
  cases htc : (m.getOpt "kwargs").getOpt "tool_call_id" <;>
    simp_all [JSVal.truthy]

theorem sseToolMsgs_wf (l : List JSVal) (h : ∀ m ∈ l, wfToolsMessage m = true) :
    (sseToolMsgs l).2 = none := by
  induction l with
  | nil => rfl
  | cons m rest ih =>
    obtain ⟨h1, key⟩ := wfToolsMessage_cases (h m (by simp))
    have ih' := ih (fun m' h' => h m' (by simp [h']))
    rcases key with ⟨s, hs⟩ | hfalsy
    · by_cases hst : (JSVal.str s).truthy = true
      · simp [sseToolMsgs, get_eq_getOpt "kwargs" h1, hs, hst, jsSplitHead, ih']
      · simp only [Bool.not_eq_true] at hst
        simp [sseToolMsgs, get_eq_getOpt "kwargs" h1, hs, hst, ih']
    · simp [sseToolMsgs, get_eq_getOpt "kwargs" h1, hfalsy, ih']

theorem sseEntries_wf (entries : List (String × JSVal))
    (h : ∀ kv ∈ entries,
      (match kv.2 with | JSVal.arr ms => ms.all wfToolsMessage | _ => true) = true) :
    (sseEntries entries).2 = none := by
  induction entries with
  | nil => rfl
  | cons kv rest ih =>
    obtain ⟨k, v⟩ := kv
    have hv := h (k, v) (by simp)
    have ih' := ih (fun kv' h' => h kv' (by simp [h']))
    cases v with
    | arr ms =>
      have hms : ∀ m ∈ ms, wfToolsMessage m = true := by
        simp only [List.all_eq_true] at hv
        exact hv
      have h2 := sseToolMsgs_wf ms hms
      simp [sseEntries, seqRun_none _ _ h2, ih']
    | undefined => simpa [sseEntries] using ih'
    | null => simpa [sseEntries] using ih'
    | bool b => simpa [sseEntries] using ih'
    | num n => simpa [sseEntries] using ih'
    | str s => simpa [sseEntries] using ih'
    | obj fs => simpa [sseEntries] using ih'

theorem sseTools_wf (chunk : JSVal) (hchunk : notNullish chunk = true)
    (h : wfToolsPart chunk = true) : (sseTools chunk).2 = none := by
  unfold sseTools
  rw [get_eq_getOpt "tools" hchunk]
  by_cases ht : (chunk.getOpt "tools").truthy = true
  · unfold wfToolsPart at h
    rw [if_pos ht] at h
    simp only [List.all_eq_true] at h
    simp [ht, sseEntries_wf _ h]
  · simp only [Bool.not_eq_true] at ht
    simp [ht]

theorem wfAgentMessage_cases {parse : String → Option JSVal} {am : JSVal}
    (h : wfAgentMessage parse am = true) :
    notNullish am = true ∧
      (((am.getOpt "additional_kwargs").getOpt "tool_calls").truthy = false ∨
        ∃ l, (am.getOpt "additional_kwargs").getOpt "tool_calls" = JSVal.arr l ∧
          ∀ tc ∈ l, wfToolCall parse tc = true) := by
  simp only [wfAgentMessage, Bool.and_eq_true] at h
  refine ⟨h.1, ?_⟩
  have h2 := h.2
  by_cases ht : ((am.getOpt "additional_kwargs").getOpt "tool_calls").truthy = true
  · rw [if_pos ht] at h2
    refine Or.inr ?_
    cases htc : (am.getOpt "additional_kwargs").getOpt "tool_calls" <;> rw [htc] at h2 <;>
      simp_all [List.all_eq_true]
  · exact Or.inl (by simpa using ht)

theorem sseAgent_wf (parse : String → Option JSVal) (chunk : JSVal)
    (hchunk : notNullish chunk = true) (h : wfAgentPart parse chunk = true) :
    (sseAgent parse chunk).2 = none := by
  unfold sseAgent
  rw [get_eq_getOpt "agent" hchunk]
  by_cases ha : (chunk.getOpt "agent").truthy = true
  · simp only [wfAgentPart] at h
    rw [if_pos ha] at h
    cases hm : (chunk.getOpt "agent").getOpt "messages" <;> rw [hm] at h <;> simp at h
    rename_i l
    cases hl : l.getLast? <;> rw [hl] at h <;> simp at h
    rename_i am
    have hlast : lastElem (JSVal.arr l) = .ok am := by simp [lastElem, hl]
    obtain ⟨ham, key⟩ := wfAgentMessage_cases h
    simp only [if_pos ha, hm, hlast]
    rw [get_eq_getOpt "content" ham]
    rcases key with hfalsy | ⟨tl, htl, hwf⟩
    · simp [hfalsy]
    · simp [htl, jsIter, JSVal.truthy, sseToolCalls_wf parse tl hwf]
  · simp only [Bool.not_eq_true] at ha
    simp [ha]

theorem sseEnd_wf (chunk : JSVal) (hchunk : notNullish chunk = true)
    (h : wfEndPart chunk = true) : (sseEnd chunk).2 = none := by
  unfold sseEnd
  rw [get_eq_getOpt "__end__" hchunk]
  by_cases he : (chunk.getOpt "__end__").truthy = true
  · rw [get_eq_getOpt "messages" hchunk]
    by_cases hms : (chunk.getOpt "messages").truthy = true
    · simp only [wfEndPart, he, hms, Bool.and_self, if_true] at h
      cases hm : chunk.getOpt "messages" <;> rw [hm] at h <;> simp at h
      rename_i l
      cases hl : l.getLast? <;> rw [hl] at h <;> simp at h
      rename_i lm
      have hlast : lastElem (JSVal.arr l) = .ok lm := by simp [lastElem, hl]
      rw [hm] at hms
      simp only [he, if_true, hms, hlast]
      rw [get_eq_getOpt "content" h]
    · simp only [Bool.not_eq_true] at hms
      simp [he, hms]
  · simp only [Bool.not_eq_true] at he
    simp [he]

theorem consoleToolCalls_wf (parse : String → Option JSVal) (l : List JSVal)
    (h : ∀ tc ∈ l, wfToolCall parse tc = true) : (consoleToolCalls l).2 = none := by
  induction l with
  | nil => rfl
  | cons tc rest ih =>
    have htc := h tc (by simp)
    unfold wfToolCall at htc
    rw [Bool.and_eq_true, Bool.and_eq_true] at htc
    obtain ⟨⟨h1, h2⟩, _⟩ := htc
    have ih' := ih (fun tc' h' => h tc' (by simp [h']))
    simp [consoleToolCalls, get_eq_getOpt "function" h1, get_eq_getOpt "name" h2, ih']

theorem consoleToolMessage_wf (parse : String → Option JSVal) (m : JSVal)
    (h : wfToolsMessage m = true) : ∃ evs, consoleToolMessage parse m = .ok evs := by
  obtain ⟨h1, key⟩ := wfToolsMessage_cases h
  rcases key with ⟨s, hs⟩ | hfalsy
  · by_cases hst : (JSVal.str s).truthy = true
    · have hkw : notNullish (m.getOpt "kwargs") = true :=
        notNullish_of_getOpt_truthy (by rw [hs]; exact hst)
      refine ⟨[consoleParseBranch parse ⟨takeUntilColon s.data⟩
        ((m.getOpt "kwargs").getOpt "content")], ?_⟩
      unfold consoleToolMessage
      rw [get_eq_getOpt "kwargs" h1]
      simp [bind, Except.bind, pure, Except.pure, hs, hst, jsSplitHead,
        get_eq_getOpt "content" hkw]
    · refine ⟨[], ?_⟩
      unfold consoleToolMessage
      rw [get_eq_getOpt "kwargs" h1]
      simp only [Bool.not_eq_true] at hst
      simp [bind, Except.bind, pure, Except.pure, hs, hst]
  · refine ⟨[], ?_⟩
    unfold consoleToolMessage
    rw [get_eq_getOpt "kwargs" h1]
    simp [bind, Except.bind, pure, Except.pure, hfalsy]

theorem consoleToolMsgs_wf (parse : String → Option JSVal) (l : List JSVal)
    (h : ∀ m ∈ l, wfToolsMessage m = true) : (consoleToolMsgs parse l).2 = none := by
  induction l with
  | nil => rfl
  | cons m rest ih =>
    obtain ⟨evs, hevs⟩ := consoleToolMessage_wf parse m (h m (by simp))
    have ih' := ih (fun m' h' => h m' (by simp [h']))
    simp [consoleToolMsgs, hevs, ih']

theorem consoleEntries_wf (parse : String → Option JSVal) (entries : List (String × JSVal))
    (h : ∀ kv ∈ entries,
      (match kv.2 with | JSVal.arr ms => ms.all wfToolsMessage | _ => true) = true) :
    (consoleEntries parse entries).2 = none := by
  induction entries with
  | nil => rfl
  | cons kv rest ih =>
    obtain ⟨k, v⟩ := kv
    have hv := h (k, v) (by simp)
    have ih' := ih (fun kv' h' => h kv' (by simp [h']))
    cases v with
    | arr ms =>
      have hms : ∀ m ∈ ms, wfToolsMessage m = true := by
        simp only [List.all_eq_true] at hv
        exact hv
      have h2 := consoleToolMsgs_wf parse ms hms
      simp [consoleEntries, seqRun_none _ _ h2, ih']
    | undefined => simpa [consoleEntries] using ih'
    | null => simpa [consoleEntries] using ih'
    | bool b => simpa [consoleEntries] using ih'
    | num n => simpa [consoleEntries] using ih'
    | str s => simpa [consoleEntries] using ih'
    | obj fs => simpa [consoleEntries] using ih'

theorem consoleTools_wf (parse : String → Option JSVal) (chunk : JSVal)
    (hchunk : notNullish chunk = true) (h : wfToolsPart chunk = true) :
    (consoleTools parse chunk).2 = none := by
  unfold consoleTools
  rw [get_eq_getOpt "tools" hchunk]
  by_cases ht : (chunk.getOpt "tools").truthy = true
  · unfold wfToolsPart at h
    rw [if_pos ht] at h
    simp only [List.all_eq_true] at h
    simp [ht, consoleEntries_wf parse _ h]
  · simp only [Bool.not_eq_true] at ht
    simp [ht]

theorem consoleAgent_wf (parse : String → Option JSVal) (chunk : JSVal)
    (hchunk : notNullish chunk = true) (h : wfAgentPart parse chunk = true) :
    (consoleAgent chunk).2 = none := by
  unfold consoleAgent
  rw [get_eq_getOpt "agent" hchunk]
  by_cases ha : (chunk.getOpt "agent").truthy = true
  · simp only [wfAgentPart] at h
    rw [if_pos ha] at h
    cases hm : (chunk.getOpt "agent").getOpt "messages" <;> rw [hm] at h <;> simp at h
    rename_i l
    cases hl : l.getLast? <;> rw [hl] at h <;> simp at h
    rename_i am
    have hlast : lastElem (JSVal.arr l) = .ok am := by simp [lastElem, hl]
    obtain ⟨ham, key⟩ := wfAgentMessage_cases h
    simp only [if_pos ha, hm, hlast]
    rw [get_eq_getOpt "usage_metadata" ham]
    rcases key with hfalsy | ⟨tl, htl, hwf⟩
    · simp [hfalsy]
    · simp [htl, jsIter, JSVal.truthy, consoleToolCalls_wf parse tl hwf]
  · simp only [Bool.not_eq_true] at ha
    simp [ha]

theorem wellFormedChunk_parts {parse : String → Option JSVal} {chunk : JSVal}
    (h : wellFormedChunk parse chunk = true) :
    notNullish chunk = true ∧ wfAgentPart parse chunk = true ∧
      wfToolsPart chunk = true ∧ wfEndPart chunk = true := by
  simp only [wellFormedChunk, Bool.and_eq_true] at h
  tauto

/-! # Claim theorems: agent event translators -/

/-- C3 (amended): chunk translation never throws on every *well-formed*
chunk: one whose `agent` field, when truthy, carries a non-empty `messages`
array with a real last element whose truthy `tool_calls` is an array of
invocations with accessible `function` objects and JSON-parseable serialized
arguments, whose `tools` entries' array values hold real messages whose
truthy `tool_call_id` is a string, and whose termination branch carries a
non-empty `messages` array; on such chunks both the SSE handler and the
console reporter finish without an error, and a well-formed chunk none of
whose recognized branches (`agent`, `tools`, `__end__`) is taken produces no
frames and no events.  The well-formedness conditions are sufficient, not
necessary — some chunks outside the class (e.g. a string-valued `messages`)
also process cleanly — but totality as originally claimed, over chunks of
*any* shape, is false: a chunk with an `agent` field but no `messages`
throws a `TypeError` in both translators (see the counterexample). -/
theorem translator_total_on_wellformed (parse : String → Option JSVal) (chunk : JSVal)
    (h : wellFormedChunk parse chunk = true) :
    (sseChunk parse chunk).2 = none ∧ (consoleChunk parse chunk).2 = none ∧
    (((chunk.getOpt "agent").truthy = false ∧ (chunk.getOpt "tools").truthy = false ∧
        (chunk.getOpt "__end__").truthy = false) →
      sseChunk parse chunk = ([], none) ∧ consoleChunk parse chunk = ([], none)) := by
  obtain ⟨hc, hA, hT, hE⟩ := wellFormedChunk_parts h
  have hsa := sseAgent_wf parse chunk hc hA
  have hst := sseTools_wf chunk hc hT
  have hse := sseEnd_wf chunk hc hE
  have hca := consoleAgent_wf parse chunk hc hA
  have hct := consoleTools_wf parse chunk hc hT
  have hce : (consoleEndCheck chunk).2 = none := by
    unfold consoleEndCheck
    rw [get_eq_getOpt "__end__" hc]
  refine ⟨?_, ?_, ?_⟩
  · unfold sseChunk
    rw [seqRun_none _ _ hsa, seqRun_none _ _ hst]
    exact hse
  · unfold consoleChunk
    rw [seqRun_none _ _ hca, seqRun_none _ _ hct]
    exact hce
  · rintro ⟨hfa, hft, hfe⟩
    have e1 : sseAgent parse chunk = ([], none) := by
      unfold sseAgent
      rw [get_eq_getOpt "agent" hc]
      simp [hfa]
    have e2 : sseTools chunk = ([], none) := by
      unfold sseTools
      rw [get_eq_getOpt "tools" hc]
      simp [hft]
    have e3 : sseEnd chunk = ([], none) := by
      unfold sseEnd
      rw [get_eq_getOpt "__end__" hc]
      simp [hfe]
    have e4 : consoleAgent chunk = ([], none) := by
      unfold consoleAgent
      rw [get_eq_getOpt "agent" hc]
      simp [hfa]
    have e5 : consoleTools parse chunk = ([], none) := by
      unfold consoleTools
      rw [get_eq_getOpt "tools" hc]
      simp [hft]
    have e6 : consoleEndCheck chunk = ([], none) := by
      unfold consoleEndCheck
      rw [get_eq_getOpt "__end__" hc]
    constructor
    · unfold sseChunk
      rw [e1, e2, e3]
      rfl
    · unfold consoleChunk
      rw [e4, e5, e6]
      rfl

/-- Witness for `translator_total_on_wellformed`: a well-formed agent chunk
with plain content passes both translators without an error. -/
theorem translator_total_witness :
    (sseChunk parseNone chunkAgentHello).2 = none ∧
    (consoleChunk parseNone chunkAgentHello).2 = none := by
  have h := translator_total_on_wellformed parseNone chunkAgentHello (by decide)
  exact ⟨h.1, h.2.1⟩

/-- C3 counterexample: the chunk `{agent: {}}` — an `agent` field with no
messages — makes both translators throw a `TypeError` (reading
`chunk.agent.messages.length` on `undefined`), producing zero events; chunk
processing is not total. -/
theorem translator_throws_on_agent_without_messages :
    (sseChunk parseNone chunkAgentNoMessages).1 = [] ∧
    (sseChunk parseNone chunkAgentNoMessages).2 =
      some "TypeError: cannot read length of undefined" ∧
    (consoleChunk parseNone chunkAgentNoMessages).1 = [] ∧
    (consoleChunk parseNone chunkAgentNoMessages).2 =
      some "TypeError: cannot read length of undefined" :=
  ⟨rfl, rfl, rfl, rfl⟩

/-- All frames of a list are `data:` json frames. -/
def framesData (fs : List Frame) : Prop := ∀ f ∈ fs, ∃ p, f = Frame.data p

theorem framesData_nil : framesData [] := by
  intro f hf
  simp at hf

theorem framesData_seqRun {p : List Frame × Option String}
    {k : Unit → List Frame × Option String}
    (hp : framesData p.1) (hk : framesData (k ()).1) : framesData (seqRun p k).1 := by
  intro f hf
  rcases seqRun_mem p k f hf with h | h
  exacts [hp f h, hk f h]

theorem sseToolCalls_frames (parse : String → Option JSVal) (l : List JSVal) :
    framesData (sseToolCalls parse l).1 := by
  induction l with
  | nil => exact framesData_nil
  | cons tc rest ih =>
    unfold sseToolCalls
    cases tc.get "function" with
    | error e => exact framesData_nil
    | ok fn =>
      dsimp only
      cases fn.get "name" with
      | error e => exact framesData_nil
      | ok nameV =>
        dsimp only
        cases fn.get "arguments" with
        | error e => exact framesData_nil
        | ok argsV =>
          dsimp only
          cases parse (jsToString argsV) with
          | none => exact framesData_nil
          | some args =>
            dsimp only
            intro f hf
            rcases List.mem_cons.mp hf with rfl | hf'
            · exact ⟨_, rfl⟩
            · exact ih f hf'

theorem sseToolMsgs_frames (l : List JSVal) : framesData (sseToolMsgs l).1 := by
  induction l with
  | nil => exact framesData_nil
  | cons m rest ih =>
    unfold sseToolMsgs
    cases m.get "kwargs" with
    | error e => exact framesData_nil
    | ok kwargs =>
      dsimp only
      by_cases ht : (kwargs.getOpt "tool_call_id").truthy = true
      · rw [if_pos ht]
        cases jsSplitHead (kwargs.getOpt "tool_call_id") with
        | error e => exact framesData_nil
        | ok toolName =>
          dsimp only
          intro f hf
          rcases List.mem_cons.mp hf with rfl | hf'
          · exact ⟨_, rfl⟩
          · exact ih f hf'
      · rw [if_neg ht]
        exact ih

theorem sseEntries_frames (entries : List (String × JSVal)) :
    framesData (sseEntries entries).1 := by
  induction entries with
  | nil => exact framesData_nil
  | cons kv rest ih =>
    obtain ⟨k, v⟩ := kv
    cases v with
    | arr ms => exact framesData_seqRun (sseToolMsgs_frames ms) ih
    | undefined => exact ih
    | null => exact ih
    | bool b => exact ih
    | num n => exact ih
    | str s => exact ih
    | obj fs => exact ih

theorem sseTools_frames (chunk : JSVal) : framesData (sseTools chunk).1 := by
  unfold sseTools
  cases chunk.get "tools" with
  | error e => exact framesData_nil
  | ok t =>
    dsimp only
    by_cases ht : t.truthy = true
    · rw [if_pos ht]
      exact sseEntries_frames _
    · rw [if_neg ht]
      exact framesData_nil

theorem sseEnd_frames (chunk : JSVal) : framesData (sseEnd chunk).1 := by
  unfold sseEnd
  cases chunk.get "__end__" with
  | error e => exact framesData_nil
  | ok endV =>
    dsimp only
    by_cases he : endV.truthy = true
    · rw [if_pos he]
      cases chunk.get "messages" with
      | error e => exact framesData_nil
      | ok msgsV =>
        dsimp only
        by_cases hm : msgsV.truthy = true
        · rw [if_pos hm]
          cases lastElem msgsV with
          | error e => exact framesData_nil
          | ok lm =>
            dsimp only
            cases lm.get "content" with
            | error e => exact framesData_nil
            | ok contentV =>
              dsimp only
              intro f hf
              rcases List.mem_singleton.mp hf with rfl
              exact ⟨_, rfl⟩
        · rw [if_neg hm]
          exact framesData_nil
    · rw [if_neg he]
      exact framesData_nil

theorem sseAgent_frames (parse : String → Option JSVal) (chunk : JSVal) :
    framesData (sseAgent parse chunk).1 := by
  unfold sseAgent
  cases chunk.get "agent" with
  | error e => exact framesData_nil
  | ok agentV =>
    dsimp only
    by_cases ha : agentV.truthy = true
    · rw [if_pos ha]
      cases lastElem (agentV.getOpt "messages") with
      | error e => exact framesData_nil
      | ok agentMessage =>
        dsimp only
        cases agentMessage.get "content" with
        | error e => exact framesData_nil
        | ok contentV =>
          dsimp only
          have hfs1 : framesData
              (if contentV.truthy then
                [Frame.data (.obj [("type", .str "agent"), ("content", contentV)])]
              else []) := by
            by_cases hc : contentV.truthy = true
            · rw [if_pos hc]
              intro f hf
              rcases List.mem_singleton.mp hf with rfl
              exact ⟨_, rfl⟩
            · rw [if_neg hc]
              exact framesData_nil
          by_cases ht : ((agentMessage.getOpt "additional_kwargs").getOpt "tool_calls").truthy
            = true
          · rw [if_pos ht]
            cases jsIter ((agentMessage.getOpt "additional_kwargs").getOpt "tool_calls") with
            | error e => exact hfs1
            | ok il =>
              dsimp only
              intro f hf
              rcases List.mem_append.mp hf with h | h
              · exact hfs1 f h
              · exact sseToolCalls_frames parse il f h
          · rw [if_neg ht]
            exact hfs1
    · rw [if_neg ha]
      exact framesData_nil

theorem sseChunk_frames (parse : String → Option JSVal) (chunk : JSVal) :
    framesData (sseChunk parse chunk).1 :=
  framesData_seqRun (sseAgent_frames parse chunk)
    (framesData_seqRun (sseTools_frames chunk) (sseEnd_frames chunk))

theorem runChunks_frames (parse : String → Option JSVal) (chunks : List JSVal) :
    framesData (runChunks parse chunks).1 := by
  induction chunks with
  | nil => exact framesData_nil
  | cons c cs ih => exact framesData_seqRun (sseChunk_frames parse c) ih

/-- C9: the streaming body of the SSE handler always closes the response
exactly once; every frame produced by chunk translation is a `data: <json>`
frame; when the stream ends cleanly the output is exactly those data frames
followed by one `data: [DONE]` sentinel; when chunk translation throws, or
the underlying stream iteration fails, the output is the data frames written
so far followed by exactly one `data: {"type":"error",...}` frame — the
response is never left open. -/
theorem stream_sink_terminates (parse : String → Option JSVal) (chunks : List JSVal)
    (streamErr : Option String) :
    (executeStream parse chunks streamErr).2 = 1 ∧
    (∀ f ∈ (runChunks parse chunks).1, ∃ p, f = Frame.data p) ∧
    ((runChunks parse chunks).2 = none → streamErr = none →
      (executeStream parse chunks streamErr).1 =
        (runChunks parse chunks).1 ++ [Frame.done]) ∧
    (∀ e, (runChunks parse chunks).2 = some e →
      (executeStream parse chunks streamErr).1 =
        (runChunks parse chunks).1 ++ [mkErrorFrame e]) ∧
    (∀ e, (runChunks parse chunks).2 = none → streamErr = some e →
      (executeStream parse chunks streamErr).1 =
        (runChunks parse chunks).1 ++ [mkErrorFrame e]) := by
  refine ⟨?_, runChunks_frames parse chunks, ?_, ?_, ?_⟩
  · unfold executeStream
    cases h : (runChunks parse chunks).2 <;> cases streamErr <;> simp [h]
  · intro h1 h2
    subst h2
    simp [executeStream, h1]
  · intro e he
    simp [executeStream, he]
  · intro e h1 h2
    subst h2
    simp [executeStream, h1]

/-- Witness for `stream_sink_terminates`: a one-chunk clean stream closes
once and ends with the `[DONE]` sentinel after its data frames. -/
theorem stream_sink_terminates_witness :
    (executeStream parseNone [chunkAgentHello] none).2 = 1 ∧
    (executeStream parseNone [chunkAgentHello] none).1 =
      (runChunks parseNone [chunkAgentHello]).1 ++ [Frame.done] := by
  have h := stream_sink_terminates parseNone [chunkAgentHello] none
  exact ⟨h.1, h.2.2.1 rfl rfl⟩

theorem consoleParseBranch_eq (parse : String → Option JSVal) (name : String)
    (contentV : JSVal) :
    consoleParseBranch parse name contentV = expectedToolResult parse name contentV := by
  unfold consoleParseBranch expectedToolResult
  cases hp : parse (jsToString contentV) with
  | none => rfl
  | some c =>
    cases c with
    | undefined => rfl
    | null => rfl
    | bool b => rfl
    | num n => rfl
    | str s => rfl
    | arr xs => rfl
    | obj fields =>
      by_cases h0 : isNumZero ((JSVal.obj fields).getOpt "code") = true
      · by_cases hd : ((JSVal.obj fields).getOpt "data").truthy = true
        · simp [bind, Except.bind, pure, Except.pure, JSVal.get, notNullish, h0, hd]
        · simp [bind, Except.bind, pure, Except.pure, JSVal.get, notNullish, h0, hd]
      · simp [bind, Except.bind, pure, Except.pure, JSVal.get, notNullish, h0]

/-- C7 (amended): for every list of requested tool invocations all of whose
serialized arguments parse as JSON, the SSE handler emits one `tool_call`
frame per invocation, in the order listed, carrying `function.name` and the
parsed arguments; but when any invocation's serialized arguments fail to
parse, the handler throws a `SyntaxError` out of the loop (aborting the
stream with an error frame) instead of emitting `ToolCall(name, rawString)`
— there is no raw-string fallback.  (Original claim corrected: the fallback
it describes does not exist in the code.) -/
theorem sse_tool_calls_contract (parse : String → Option JSVal) (l : List JSVal)
    (h : ∀ tc ∈ l, wfToolCall parse tc = true) :
    sseToolCalls parse l = (l.map (expectedToolCallFrame parse), none) :=
  sseToolCalls_wf parse l h

/-- Witness for `sse_tool_calls_contract`: one invocation with parseable
arguments yields exactly its `tool_call` frame and no error. -/
theorem sse_tool_calls_contract_witness :
    sseToolCalls parseDemo [toolCallGoodArgs] =
      ([expectedToolCallFrame parseDemo toolCallGoodArgs], none) :=
  sse_tool_calls_contract parseDemo [toolCallGoodArgs] (by decide)

/-- C7 counterexample: an invocation whose serialized arguments are not valid
JSON produces no `ToolCall(name, rawString)` frame at all — the translation
throws a `SyntaxError` (which the stream handler surfaces as a single error
frame), contradicting the claimed raw-string fallback. -/
theorem sse_tool_call_parse_failure_counterexample :
    (sseToolCalls parseNone [toolCallBadArgs]).1 = [] ∧
    (sseToolCalls parseNone [toolCallBadArgs]).2 =
      some "SyntaxError: unexpected token in JSON" :=
  ⟨rfl, rfl⟩

/-- C8 (amended): for a tool execution result carried in a message whose
`kwargs.tool_call_id` is a truthy string, the console reporter recovers the
tool name as the id segment before the first `:` and reports exactly one
`ToolResult`: a payload parsing to a value with `code === 0` **and truthy
`data`** yields `success = true` with the data; any other parsed non-nullish
payload — including `code === 0` with missing or falsy `data` — yields
`success = false` with `msg || 'Unknown error'`; a payload that does not
parse (or parses to `null`, whose property access throws inside the `try`)
is forwarded raw with `success = true`; no case throws.  (Original claim
corrected: `code 0` alone does not imply success — the source also requires
truthy `data`.) -/
theorem console_tool_result_contract (parse : String → Option JSVal) (message : JSVal)
    (kw : List (String × JSVal)) (tid : String)
    (hk : message.get "kwargs" = .ok (JSVal.obj kw))
    (ht : (JSVal.obj kw).getOpt "tool_call_id" = .str tid)
    (htid : tid ≠ "") :
    consoleToolMessage parse message =
      .ok [expectedToolResult parse (⟨takeUntilColon tid.data⟩ : String)
        ((JSVal.obj kw).getOpt "content")] := by
  unfold consoleToolMessage
  rw [hk]
  simp [bind, Except.bind, pure, Except.pure, ht, JSVal.truthy, htid, jsSplitHead,
    JSVal.get, consoleParseBranch_eq]

/-- Witness for `console_tool_result_contract`: a result whose payload parses
to `{code: 0, data: {...}}` is reported as the success `ToolResult` with its
data, under the name before the first `:` of the call id. -/
theorem console_tool_result_contract_witness :
    consoleToolMessage parseDemo msgCode0WithData =
      .ok [AgentEvent.toolResult "drive_comment_list" true (.obj [("ok", .num 1)])] := by
  have h := console_tool_result_contract parseDemo msgCode0WithData
    [("tool_call_id", .str "drive_comment_list:call_7"),
     ("content", .str "\x7b\"code\":0,\"data\":\x7b\"ok\":1\x7d\x7d")]
    "drive_comment_list:call_7" rfl rfl (by decide)
  exact h

/-- C8 counterexample: a tool result whose payload parses to `{code: 0}`
with no `data` field is reported as `success = false` with message
`Unknown error`, not as the success the claim predicts — the source's
condition is `content.code === 0 && content.data`. -/
theorem console_code0_without_data_counterexample :
    consoleToolMessage parseDemo msgCode0NoData =
      .ok [AgentEvent.toolResult "drive_comment_list" false (.str "Unknown error")] ∧
    consoleToolMessage parseDemo msgCode0NoData ≠
      .ok [AgentEvent.toolResult "drive_comment_list" true JSVal.undefined] := by
  have heq : consoleToolMessage parseDemo msgCode0NoData =
      .ok [AgentEvent.toolResult "drive_comment_list" false (.str "Unknown error")] := rfl
  refine ⟨heq, ?_⟩
  rw [heq]
  simp
